import Mathlib

/-!
Verification of the Altair-C-Basic compatibility test harness
(compatibility_tests scripts) against its specification.

Python strings are modelled as lists of characters, Python dicts keyed by
game name as association lists, and each script is embedded in its own
namespace (AhlRunner for ahl_games/scripts/ahl_test_runner.py, TestHarness
for scripts/test_harness.py, Hamurabi for hamurabi_test/run_hamurabi_test.py,
LoopGolden for ahl_games/scripts/generate_loop_game_golden.py).
-/

namespace Altair

/-- Whitespace set of Python str.strip and str.rstrip, ASCII fragment:
space, tab, newline, carriage return, vertical tab, form feed. -/
def isPySpace (c : Char) : Bool :=
  c == ' ' || c == '\t' || c == '\n' || c == '\r' || c.val == 11 || c.val == 12

/-- The audible-bell control character, removed by the normalizers. -/
def bellChar : Char := '\x07'

/-- The escape character that introduces ANSI sequences. -/
def escChar : Char := '\x1b'

/-- Python text.split on a newline: splits a string into lines; the empty
string yields a single empty piece, and a trailing newline yields a trailing
empty piece, exactly as in Python. -/
def splitNl : List Char → List (List Char)
  | [] => [[]]
  | c :: rest =>
    if c = '\n' then [] :: splitNl rest
    else
      match splitNl rest with
      | [] => [[c]]
      | p :: ps => (c :: p) :: ps

/-- Python newline-join on a list of lines. -/
def joinNl : List (List Char) → List Char
  | [] => []
  | [l] => l
  | l :: ls => l ++ '\n' :: joinNl ls

/-- Whether pat occurs at the start of l; auxiliary for the Python
substring test. -/
def startsWith : List Char → List Char → Bool
  | _, [] => true
  | [], _ :: _ => false
  | c :: l, p :: ps => c == p && startsWith l ps

/-- Python substring containment, as in the various banner-marker tests. -/
def containsSub : List Char → List Char → Bool
  | [], pat => startsWith [] pat
  | c :: rest, pat => startsWith (c :: rest) pat || containsSub rest pat

/-- Python str.rstrip with no argument: drop trailing whitespace. -/
def rstrip (l : List Char) : List Char :=
  (l.reverse.dropWhile isPySpace).reverse

/-- Python str.strip with no argument: drop whitespace at both ends. -/
def pyStrip (l : List Char) : List Char :=
  (rstrip l).dropWhile isPySpace

/-- Python str.upper, ASCII fragment (the banner markers are all ASCII). -/
def pyUpper (l : List Char) : List Char := l.map Char.toUpper

/-- Final byte of a two-character ANSI escape: the regex character class
of at-sign through Z together with backslash through underscore. -/
def isTwoCharFinal (c : Char) : Bool :=
  decide ((0x40 ≤ c.toNat ∧ c.toNat ≤ 0x5A) ∨ (0x5C ≤ c.toNat ∧ c.toNat ≤ 0x5F))

/-- CSI parameter byte, digit zero through question mark. -/
def isCsiParam (c : Char) : Bool := decide (0x30 ≤ c.toNat ∧ c.toNat ≤ 0x3F)

/-- CSI intermediate byte, space through slash. -/
def isCsiInter (c : Char) : Bool := decide (0x20 ≤ c.toNat ∧ c.toNat ≤ 0x2F)

/-- CSI final byte, at-sign through tilde. -/
def isCsiFinal (c : Char) : Bool := decide (0x40 ≤ c.toNat ∧ c.toNat ≤ 0x7E)

/-- Greedy parse of a CSI body (parameter bytes, then intermediate bytes,
then one final byte) after an ESC-bracket prefix; returns the remainder on
success. Greedy matching is exact here because the three byte classes are
pairwise disjoint, so the regex cannot succeed by backtracking. -/
def csiSplit (l : List Char) : Option (List Char) :=
  match (l.dropWhile isCsiParam).dropWhile isCsiInter with
  | [] => none
  | f :: r => if isCsiFinal f then some r else none

/-- One left-to-right pass of re.sub with the ANSI-escape pattern of
strip_banner: at each ESC try the two-character alternative, then the CSI
alternative; on failure keep the ESC and resume scanning at the next
character, exactly as re.sub resumes at position plus one. The fuel
argument only bounds the recursion; one unit is spent per character
consumed, so fuel equal to the length of the list never runs out. -/
def stripAnsiFuel : Nat → List Char → List Char
  | 0, l => l
  | _ + 1, [] => []
  | fuel + 1, c :: rest =>
    if c = escChar then
      match rest with
      | [] => [c]
      | d :: rest2 =>
        if isTwoCharFinal d then stripAnsiFuel fuel rest2
        else if d = '[' then
          match csiSplit rest2 with
          | some rest3 => stripAnsiFuel fuel rest3
          | none => c :: stripAnsiFuel fuel rest
        else c :: stripAnsiFuel fuel rest
    else c :: stripAnsiFuel fuel rest

/-- The ANSI-escape removal pass shared by strip_banner and
strip_simh_output. -/
def stripAnsi (l : List Char) : List Char := stripAnsiFuel l.length l

/-- Python text.replace of the bell character with the empty string. -/
def removeBell (s : List Char) : List Char := s.filter (fun c => !(c == bellChar))

/-- Python text.replace of the carriage return with the empty string. -/
def removeCR (s : List Char) : List Char := s.filter (fun c => !(c == '\r'))

/-- The while-pop loop removing leading empty lines. -/
def dropLeadingBlanks (L : List (List Char)) : List (List Char) :=
  L.dropWhile List.isEmpty

/-- The while-pop loop removing trailing empty lines. -/
def dropTrailingBlanks (L : List (List Char)) : List (List Char) :=
  (L.reverse.dropWhile List.isEmpty).reverse

/-- Scenario verdicts of the harnesses. -/
inductive Verdict where
  | PASS
  | FAIL
  | SKIP
deriving DecidableEq, Repr

/-- Model of difflib.unified_diff at the granularity the harness observes:
the output is empty exactly when the two line sequences are equal
(identical sequences produce no opcode group, hence no output), and on
inequality it begins with the two file-header lines followed by the hunk
body. Hunk grouping and context windows of difflib are abstracted into a
simple aligned line diff, which is enough for every property stated about
the diff (emptiness and presence). -/
def diffBody : List (List Char) → List (List Char) → List (List Char)
  | [], [] => []
  | [], y :: ys => ('+' :: y) :: diffBody [] ys
  | x :: xs, [] => ('-' :: x) :: diffBody xs []
  | x :: xs, y :: ys =>
    if x = y then (' ' :: x) :: diffBody xs ys
    else ('-' :: x) :: ('+' :: y) :: diffBody xs ys

/-- difflib.unified_diff with lineterm set to the empty string, as every
call site uses it; fromfile and tofile are the two header labels. -/
def unified_diff (a b : List (List Char)) (fromfile tofile : List Char) :
    List (List Char) :=
  if a = b then []
  else ("--- ".data ++ fromfile) :: ("+++ ".data ++ tofile) :: diffBody a b

namespace AhlRunner

/-- The banner-marker and blank-line test of the skipping state of
strip_banner in ahl_test_runner.py: every condition of the if-chain whose
body is a continue statement. -/
def skippable (line : List Char) : Bool :=
  containsSub line ("MICROSOFT BASIC".data) ||
  (containsSub (pyUpper line) ("ALTAIR".data) &&
    containsSub (pyUpper line) ("VERSION".data)) ||
  containsSub line ("[8K VERSION]".data) ||
  containsSub line ("[4K VERSION]".data) ||
  containsSub line ("COPYRIGHT".data) ||
  containsSub line ("BYTES FREE".data) ||
  pyStrip line == ("OK".data) ||
  pyStrip line == ([] : List Char)

/-- The for-loop of strip_banner over the split lines, with the skip_banner
flag as explicit state: while skipping, a line matching a marker or blank is
dropped; the first other line clears the flag and is emitted; with the flag
clear every line is emitted. -/
def bannerLoop : Bool → List (List Char) → List (List Char)
  | _, [] => []
  | true, l :: ls => if skippable l then bannerLoop true ls else l :: bannerLoop false ls
  | false, l :: ls => l :: bannerLoop false ls

/-- strip_banner of ahl_test_runner.py: remove bells, ANSI escapes and
carriage returns, then run the banner-skip loop over the lines. -/
def strip_banner (s : List Char) : List Char :=
  joinNl (bannerLoop true (splitNl (removeCR (stripAnsi (removeBell s)))))

/-- normalize_output of ahl_test_runner.py: rstrip each line, then pop
leading and trailing empty lines. -/
def normalize_output (s : List Char) : List Char :=
  joinNl (dropTrailingBlanks (dropLeadingBlanks ((splitNl s).map rstrip)))

/-- The full normalization pipeline of section 4.2 as the runner composes
it: run_interpreter applies strip_banner to the raw output and
compare_outputs applies normalize_output on top. -/
def normalize (s : List Char) : List Char := normalize_output (strip_banner s)

/-- compare_outputs of ahl_test_runner.py; name is the game/scenario label
used in the diff headers. -/
def compare_outputs (c golden name : List Char) : Bool × Option (List Char) :=
  let cNorm := normalize_output c
  let goldenNorm := normalize_output golden
  if cNorm = goldenNorm then (true, none)
  else
    (false, some (joinNl (unified_diff (splitNl goldenNorm) (splitNl cNorm)
      (name ++ (".golden".data)) (name ++ (".c".data)))))

/-- Inputs with no escape character, the domain on which the pipeline is
idempotent. -/
def escFree (s : List Char) : Bool := s.all (fun c => c != escChar)

/-- The line-level part of normalize_output. -/
def normLines (L : List (List Char)) : List (List Char) :=
  dropTrailingBlanks (dropLeadingBlanks (L.map rstrip))

/-- The per-scenario verdict of test_game: SKIP when no golden file exists,
otherwise PASS or FAIL by compare_outputs. -/
def scenario_verdict (golden : Option (List Char)) (cOutput name : List Char) :
    Verdict :=
  match golden with
  | none => Verdict.SKIP
  | some g => if (compare_outputs cOutput g name).1 then Verdict.PASS else Verdict.FAIL

/-- The verdict list test_game builds over the scenario list; each scenario
is its optional golden record paired with the interpreter output obtained
for it. -/
def test_game_results (scenarios : List (Option (List Char) × List Char))
    (name : List Char) : List Verdict :=
  scenarios.map (fun sc => scenario_verdict sc.1 sc.2 name)

/-- The return value of test_game: none when the game has no scenarios,
otherwise whether no scenario failed. -/
def test_game_return (results : List Verdict) : Option Bool :=
  if results.length = 0 then none
  else some (results.countP (fun r => r == Verdict.FAIL) == 0)

/-- One game record of the registry; the fields the claims concern. The
file, description and notes fields carry no logic and are omitted. -/
structure GameEntry where
  status : String
  scenarios_count : Nat
deriving DecidableEq, Repr

/-- The registry-status update at the end of test_game: tested when no
scenario failed and at least one passed, failed when any failed, otherwise
the status is left as it was. -/
def newStatus (results : List Verdict) (prior : String) : String :=
  let passed := results.countP (fun r => r == Verdict.PASS)
  let failed := results.countP (fun r => r == Verdict.FAIL)
  if failed = 0 ∧ 0 < passed then ("tested")
  else if 0 < failed then ("failed")
  else prior

/-- The mutation test_game applies to the registry entry of the game it
ran: scenarios_count is set and the status transition applied. -/
def updateEntry (e : GameEntry) (results : List Verdict) : GameEntry :=
  { status := newStatus results e.status, scenarios_count := results.length }

/-- The test_statistics block of the registry file. -/
structure TestStats where
  total_games : Nat
  tested : Nat
  pending : Nat
  failed : Nat
deriving DecidableEq, Repr

/-- The registry: the games mapping (modelled as an association list) and
the stored statistics block. The metadata date stamp carries no logic and
is omitted. -/
structure Registry where
  games : List (String × GameEntry)
  test_statistics : TestStats
deriving DecidableEq, Repr

/-- The statistics save_registry computes from the full game set. -/
def computeStats (games : List (String × GameEntry)) : TestStats :=
  { total_games := games.length
    tested := games.countP (fun g => g.2.status == ("tested"))
    pending := games.countP (fun g => g.2.status == ("pending"))
    failed := games.countP (fun g => g.2.status == ("failed")) }

/-- save_registry: replaces the stored statistics with ones recomputed from
the games mapping, whatever was stored before. -/
def save_registry (r : Registry) : Registry :=
  { r with test_statistics := computeStats r.games }

/-- The registry effect of one test_game call on the named game. -/
def runGame (r : Registry) (name : String) (results : List Verdict) : Registry :=
  { r with games :=
      r.games.map (fun g =>
        if g.1 = name then (g.1, updateEntry g.2 results) else g) }

/-- A sequence of test_game calls. -/
def applyRuns (runs : List (String × List Verdict)) (r : Registry) : Registry :=
  runs.foldl (fun acc pr => runGame acc pr.1 pr.2) r

/-- A status is one of the three values of the registry schema. -/
def statusOk (s : String) : Bool :=
  s == ("tested") || s == ("pending") || s == ("failed")

/-- Every game status in the list conforms to the registry schema. -/
def wfGames (games : List (String × GameEntry)) : Bool :=
  games.all (fun g => statusOk g.2.status)

/-- The tally main prints after test with the all flag: games passed,
failed and skipped, from the per-game returns of test_game. -/
def final_summary (gameResults : List (Option Bool)) : Nat × Nat × Nat :=
  (gameResults.countP (fun r => r == some true),
    gameResults.countP (fun r => r == some false),
    gameResults.countP (fun r => r == none))

/-- The exit code of main for the test command once the tests have run:
the source returns 0 at the end of main without consulting the per-game
results. -/
def main_test_all_exit (_gameResults : List (Option Bool)) : Nat := 0

/-- The output assembly of run_interpreter on the Unix path: on success the
captured standard output followed by standard error, on timeout the fixed
sentinel string; strip_banner is applied to the result either way. The
process-group kill and reap between the timeout and the return are
operating-system effects outside this embedding. -/
def run_interpreter_output (timedOut : Bool) (stdout stderr : List Char) :
    List Char :=
  strip_banner (if timedOut then ("TIMEOUT ERROR").data else stdout ++ stderr)

end AhlRunner

/-- Python str.split with no argument: words separated by whitespace runs.
The fuel only bounds the recursion; one unit is spent per character
consumed, so fuel equal to the length of the list never runs out. -/
def wordsFuel : Nat → List Char → List (List Char)
  | 0, _ => []
  | _ + 1, [] => []
  | fuel + 1, c :: r =>
    if isPySpace c then wordsFuel fuel r
    else (c :: r.takeWhile (fun d => !(isPySpace d))) ::
      wordsFuel fuel (r.dropWhile (fun d => !(isPySpace d)))

/-- Python str.split with no argument. -/
def pySplitWs (l : List Char) : List (List Char) := wordsFuel l.length l

/-- Python single-space join over a word list. -/
def joinSpace : List (List Char) → List Char
  | [] => []
  | [w] => w
  | w :: ws => w ++ ' ' :: joinSpace ws

namespace TestHarness

/-- normalize_output of test_harness.py: strip the whole text, then per
line collapse every whitespace run to one space via split and join. -/
def normalize_output (t : List Char) : List Char :=
  joinNl ((splitNl (pyStrip t)).map (fun line => joinSpace (pySplitWs line)))

/-- compare_outputs of test_harness.py: none when the normalized line lists
agree, otherwise the joined unified diff. -/
def compare_outputs (golden actual : List Char) : Option (List Char) :=
  let goldenNorm := normalize_output golden
  let actualNorm := normalize_output actual
  let goldenLines := splitNl goldenNorm
  let actualLines := splitNl actualNorm
  if goldenLines = actualLines then none
  else some (joinNl (unified_diff goldenLines actualLines
    (("golden").data) (("actual").data)))

/-- The verdict of run_test: SKIP when the golden file is missing,
otherwise PASS or FAIL from compare_outputs; the stored golden text is
read with a whole-text strip. -/
def run_test_verdict (golden : Option (List Char)) (actual : List Char) :
    Verdict :=
  match golden with
  | none => Verdict.SKIP
  | some g =>
    match compare_outputs (pyStrip g) actual with
    | none => Verdict.PASS
    | some _ => Verdict.FAIL

/-- The return value of cmd_test: whether the FAIL tally is zero. -/
def cmd_test_success (statuses : List Verdict) : Bool :=
  statuses.countP (fun s => s == Verdict.FAIL) == 0

/-- The exit code main passes to sys.exit for the test command. -/
def main_test_exit (statuses : List Verdict) : Nat :=
  if cmd_test_success statuses then 0 else 1

end TestHarness

namespace Hamurabi

/-- The started-flag loop shared by strip_banner and strip_simh_output of
run_hamurabi_test.py: drop every line until the first one containing
HAMURABI, keep that line and everything after it. -/
def hamKeep : Bool → List (List Char) → List (List Char)
  | _, [] => []
  | true, l :: ls => l :: hamKeep true ls
  | false, l :: ls =>
    if containsSub l (("HAMURABI").data) then l :: hamKeep true ls
    else hamKeep false ls

/-- strip_banner of run_hamurabi_test.py: remove bell characters, then keep
from the first HAMURABI line onward. -/
def strip_banner (s : List Char) : List Char :=
  joinNl (hamKeep false (splitNl (removeBell s)))

/-- strip_simh_output of run_hamurabi_test.py: remove ANSI escapes,
carriage returns and bells, then keep from the first HAMURABI line
onward. -/
def strip_simh_output (s : List Char) : List Char :=
  joinNl (hamKeep false (splitNl (removeBell (removeCR (stripAnsi s)))))

/-- normalize_output of run_hamurabi_test.py: strip the whole text, rstrip
each line, skip empty lines while nothing has been kept yet, then pop
trailing empty lines. -/
def normalize_output (t : List Char) : List Char :=
  joinNl (dropTrailingBlanks (dropLeadingBlanks ((splitNl (pyStrip t)).map rstrip)))

/-- compare_outputs of run_hamurabi_test.py. -/
def compare_outputs (c simh scenarioName : List Char) :
    Bool × Option (List Char) :=
  let cNorm := normalize_output c
  let simhNorm := normalize_output simh
  if cNorm = simhNorm then (true, none)
  else
    (false, some (joinNl (unified_diff (splitNl simhNorm) (splitNl cNorm)
      (scenarioName ++ (".simh".data)) (scenarioName ++ (".c".data)))))

/-- The exit code of main of run_hamurabi_test.py: 0 when no scenario
failed, 1 otherwise. -/
def main_exit (statuses : List Verdict) : Nat :=
  if statuses.countP (fun s => s == Verdict.FAIL) == 0 then 0 else 1

end Hamurabi

namespace LoopGolden

/-- The banner loop of strip_banner in generate_loop_game_golden.py: same
markers as the AHL runner, but each emitted line is rstripped as it is
appended. -/
def bannerLoopR : Bool → List (List Char) → List (List Char)
  | _, [] => []
  | true, l :: ls =>
    if AhlRunner.skippable l then bannerLoopR true ls
    else rstrip l :: bannerLoopR false ls
  | false, l :: ls => rstrip l :: bannerLoopR false ls

/-- strip_banner of generate_loop_game_golden.py: remove bells, ANSI
escapes and carriage returns, run the banner loop with per-line rstrip,
then pop trailing empty lines. -/
def strip_banner (s : List Char) : List Char :=
  joinNl (dropTrailingBlanks
    (bannerLoopR true (splitNl (removeCR (stripAnsi (removeBell s))))))

/-- The output assembly of run_with_timeout: on success the captured
standard output followed by standard error, and on timeout the partial
standard output followed by the partial standard error taken from the
TimeoutExpired exception; both branches concatenate what was captured, so
partial output is preserved. -/
def run_with_timeout_output (stdout stderr : List Char) : List Char :=
  strip_banner (stdout ++ stderr)

end LoopGolden

/-- A whole string free of newlines. -/
def noNl (s : List Char) : Bool := s.all (fun c => c != '\n')

/-- A line free of the characters the pre-passes of strip_banner remove and
of newlines, so that splitting and rejoining it is stable. -/
def cleanLine (l : List Char) : Bool :=
  l.all (fun c => c != bellChar && c != escChar && c != '\r' && c != '\n')

/-- Every line of the list is clean. -/
def cleanLines (L : List (List Char)) : Bool := L.all cleanLine

/-- The consistency condition claim C3 states of a saved registry. -/
def AhlRunner.statsConsistent (r : AhlRunner.Registry) : Prop :=
  r.test_statistics.total_games = r.games.length ∧
    r.test_statistics.tested + r.test_statistics.pending +
      r.test_statistics.failed = r.test_statistics.total_games ∧
    r.test_statistics = AhlRunner.computeStats r.games

theorem splitNl_ne_nil (s : List Char) : splitNl s ≠ [] := by
  match s with
  | [] => simp [splitNl]
  | c :: rest =>
    simp only [splitNl]
    split
    · simp
    · split <;> simp

theorem joinNl_cons_cons (l l' : List Char) (ls : List (List Char)) :
    joinNl (l :: l' :: ls) = l ++ '\n' :: joinNl (l' :: ls) := by
  rfl

theorem joinNl_splitNl (s : List Char) : joinNl (splitNl s) = s := by
  induction s with
  | nil => rfl
  | cons c rest ih =>
    simp only [splitNl]
    split
    · rename_i hc
      subst hc
      rcases h : splitNl rest with _ | ⟨p, ps⟩
      · exact absurd h (splitNl_ne_nil rest)
      · rw [h] at ih
        rw [joinNl_cons_cons]
        simpa using ih
    · rcases h : splitNl rest with _ | ⟨p, ps⟩
      · exact absurd h (splitNl_ne_nil rest)
      · rw [h] at ih
        rcases ps with _ | ⟨q, qs⟩
        · simpa [joinNl] using ih
        · rw [joinNl_cons_cons] at ih ⊢
          simpa using ih

theorem splitNl_mem_noNl (s : List Char) :
    ∀ p ∈ splitNl s, '\n' ∉ p := by
  induction s with
  | nil => simp [splitNl]
  | cons c rest ih =>
    intro p hp
    simp only [splitNl] at hp
    split at hp
    · rcases List.mem_cons.mp hp with hp1 | hp1
      · subst hp1; simp
      · exact ih p hp1
    · rename_i hc
      rcases h : splitNl rest with _ | ⟨q, qs⟩
      · exact absurd h (splitNl_ne_nil rest)
      · rw [h] at hp
        rcases List.mem_cons.mp hp with hp1 | hp1
        · subst hp1
          intro hmem
          rcases List.mem_cons.mp hmem with h1 | h1
          · exact hc h1.symm
          · exact ih q (by rw [h]; exact List.mem_cons_self q qs) h1
        · exact ih p (by rw [h]; exact List.mem_cons_of_mem q hp1)

theorem splitNl_mem_subset (s : List Char) :
    ∀ p ∈ splitNl s, ∀ c ∈ p, c ∈ s := by
  induction s with
  | nil => simp [splitNl]
  | cons c rest ih =>
    intro p hp d hd
    simp only [splitNl] at hp
    split at hp
    · rcases List.mem_cons.mp hp with hp1 | hp1
      · subst hp1; simp at hd
      · exact List.mem_cons_of_mem c (ih p hp1 d hd)
    · rcases h : splitNl rest with _ | ⟨q, qs⟩
      · exact absurd h (splitNl_ne_nil rest)
      · rw [h] at hp
        rcases List.mem_cons.mp hp with hp1 | hp1
        · subst hp1
          rcases List.mem_cons.mp hd with h1 | h1
          · exact h1 ▸ List.mem_cons_self c rest
          · exact List.mem_cons_of_mem c
              (ih q (by rw [h]; exact List.mem_cons_self q qs) d h1)
        · exact List.mem_cons_of_mem c
            (ih p (by rw [h]; exact List.mem_cons_of_mem q hp1) d hd)

theorem splitNl_of_noNl (s : List Char) (h : '\n' ∉ s) : splitNl s = [s] := by
  induction s with
  | nil => rfl
  | cons c rest ih =>
    have hc : c ≠ '\n' := fun hcc => h (hcc ▸ List.mem_cons_self c rest)
    have hr : '\n' ∉ rest := fun hm => h (List.mem_cons_of_mem c hm)
    simp only [splitNl, if_neg (fun hcc => hc hcc), ih hr]

theorem splitNl_append_nl (l r : List Char) (h : '\n' ∉ l) :
    splitNl (l ++ '\n' :: r) = l :: splitNl r := by
  induction l with
  | nil => simp [splitNl]
  | cons c rest ih =>
    have hc : c ≠ '\n' := fun hcc => h (hcc ▸ List.mem_cons_self c rest)
    have hr : '\n' ∉ rest := fun hm => h (List.mem_cons_of_mem c hm)
    have hstep : (c :: rest) ++ '\n' :: r = c :: (rest ++ '\n' :: r) := rfl
    rw [hstep]
    simp only [splitNl, if_neg (fun hcc => hc hcc)]
    rw [ih hr]

theorem splitNl_joinNl (L : List (List Char)) (hne : L ≠ [])
    (hnl : ∀ l ∈ L, '\n' ∉ l) : splitNl (joinNl L) = L := by
  induction L with
  | nil => exact absurd rfl hne
  | cons l ls ih =>
    rcases ls with _ | ⟨l', ls'⟩
    · exact splitNl_of_noNl l (hnl l (List.mem_cons_self l []))
    · rw [joinNl_cons_cons]
      rw [splitNl_append_nl _ _ (hnl l (List.mem_cons_self l _))]
      rw [ih (by simp) (fun x hx => hnl x (List.mem_cons_of_mem l hx))]

theorem joinNl_mem (L : List (List Char)) (c : Char) (h : c ∈ joinNl L) :
    c = '\n' ∨ ∃ l ∈ L, c ∈ l := by
  induction L with
  | nil => simp [joinNl] at h
  | cons l ls ih =>
    rcases ls with _ | ⟨l', ls'⟩
    · exact Or.inr ⟨l, List.mem_cons_self l [], h⟩
    · rw [joinNl_cons_cons] at h
      rcases List.mem_append.mp h with h1 | h1
      · exact Or.inr ⟨l, List.mem_cons_self l _, h1⟩
      · rcases List.mem_cons.mp h1 with h2 | h2
        · exact Or.inl h2
        · rcases ih h2 with h3 | ⟨x, hx, hcx⟩
          · exact Or.inl h3
          · exact Or.inr ⟨x, List.mem_cons_of_mem l hx, hcx⟩

theorem startsWith_nil_pat (l : List Char) : startsWith l [] = true := by
  cases l <;> rfl

theorem startsWith_append (l e pat : List Char) (h : startsWith l pat = true) :
    startsWith (l ++ e) pat = true := by
  induction pat generalizing l with
  | nil => exact startsWith_nil_pat (l ++ e)
  | cons p ps ih =>
    rcases l with _ | ⟨c, l'⟩
    · simp [startsWith] at h
    · simp only [startsWith, Bool.and_eq_true] at h
      simp only [List.cons_append, startsWith, Bool.and_eq_true]
      exact ⟨h.1, ih l' h.2⟩

theorem containsSub_nil_pat (l : List Char) : containsSub l [] = true := by
  cases l <;> simp [containsSub, startsWith]

theorem containsSub_append_left (l e pat : List Char)
    (h : containsSub l pat = true) : containsSub (l ++ e) pat = true := by
  induction l with
  | nil =>
    rcases pat with _ | ⟨p, ps⟩
    · exact containsSub_nil_pat e
    · simp [containsSub, startsWith] at h
  | cons c rest ih =>
    simp only [containsSub, Bool.or_eq_true] at h
    simp only [List.cons_append, containsSub, Bool.or_eq_true]
    rcases h with h | h
    · exact Or.inl (by simpa using startsWith_append (c :: rest) e pat h)
    · exact Or.inr (ih h)

theorem dropWhile_idem (p : α → Bool) (l : List α) :
    List.dropWhile p (List.dropWhile p l) = List.dropWhile p l := by
  induction l with
  | nil => rfl
  | cons a l ih =>
    by_cases h : p a = true
    · rw [List.dropWhile_cons_of_pos h]; exact ih
    · rw [List.dropWhile_cons_of_neg h, List.dropWhile_cons_of_neg h]

theorem rstrip_idem (l : List Char) : rstrip (rstrip l) = rstrip l := by
  unfold rstrip
  rw [List.reverse_reverse, dropWhile_idem]

theorem pyStrip_rstrip (l : List Char) : pyStrip (rstrip l) = pyStrip l := by
  unfold pyStrip
  rw [rstrip_idem]

/-- rstrip only removes a suffix: the original line is the stripped line
followed by some tail. -/
theorem rstrip_append_suffix (l : List Char) : ∃ t, l = rstrip l ++ t := by
  refine ⟨(l.reverse.takeWhile isPySpace).reverse, ?_⟩
  unfold rstrip
  rw [← List.reverse_append, List.takeWhile_append_dropWhile, List.reverse_reverse]

theorem rstrip_subset (l : List Char) : ∀ c ∈ rstrip l, c ∈ l := by
  intro c hc
  rcases rstrip_append_suffix l with ⟨t, ht⟩
  rw [ht]
  exact List.mem_append_left t hc

theorem containsSub_rstrip (l pat : List Char)
    (h : containsSub (rstrip l) pat = true) : containsSub l pat = true := by
  rcases rstrip_append_suffix l with ⟨t, ht⟩
  rw [ht]
  exact containsSub_append_left _ _ _ h

theorem containsSub_pyUpper_rstrip (l pat : List Char)
    (h : containsSub (pyUpper (rstrip l)) pat = true) :
    containsSub (pyUpper l) pat = true := by
  rcases rstrip_append_suffix l with ⟨t, ht⟩
  have hmap : pyUpper l = pyUpper (rstrip l) ++ pyUpper t := by
    conv_lhs => rw [ht]
    simp [pyUpper]
  rw [hmap]
  exact containsSub_append_left _ _ _ h

/-- If a line is nonblank in the Python sense (strip() nonempty), its
rstrip is nonempty. -/
theorem rstrip_ne_nil_of_pyStrip_ne_nil (l : List Char)
    (h : pyStrip l ≠ []) : rstrip l ≠ [] := by
  intro hr
  apply h
  unfold pyStrip
  rw [hr]
  rfl

theorem stripAnsiFuel_noEsc (fuel : Nat) (l : List Char)
    (h : ∀ c ∈ l, c ≠ escChar) : stripAnsiFuel fuel l = l := by
  induction fuel generalizing l with
  | zero => rfl
  | succ fuel ih =>
    rcases l with _ | ⟨c, rest⟩
    · rfl
    · have hc : c ≠ escChar := h c (List.mem_cons_self c rest)
      simp only [stripAnsiFuel, if_neg hc]
      rw [ih rest (fun d hd => h d (List.mem_cons_of_mem c hd))]

theorem stripAnsi_noEsc (l : List Char) (h : ∀ c ∈ l, c ≠ escChar) :
    stripAnsi l = l :=
  stripAnsiFuel_noEsc l.length l h

theorem dropTrailingBlanks_idem (L : List (List Char)) :
    dropTrailingBlanks (dropTrailingBlanks L) = dropTrailingBlanks L := by
  unfold dropTrailingBlanks
  rw [List.reverse_reverse, dropWhile_idem]

theorem dropLeadingBlanks_cons_of_ne (l : List Char) (L : List (List Char))
    (h : l ≠ []) : dropLeadingBlanks (l :: L) = l :: L := by
  unfold dropLeadingBlanks
  rw [List.dropWhile_cons_of_neg]
  simpa using h

theorem dropTrailingBlanks_cons_of_ne (l : List Char) (L : List (List Char))
    (h : l ≠ []) : dropTrailingBlanks (l :: L) = l :: dropTrailingBlanks L := by
  unfold dropTrailingBlanks
  have hrev : (l :: L).reverse = L.reverse ++ [l] := by simp
  rw [hrev, List.dropWhile_append]
  split
  · rename_i hemp
    rw [List.isEmpty_iff] at hemp
    rw [hemp]
    simp only [List.reverse_nil]
    rw [List.dropWhile_cons_of_neg (by simpa using h)]
    simp
  · simp

theorem dropLeadingBlanks_subset (L : List (List Char)) :
    ∀ l ∈ dropLeadingBlanks L, l ∈ L := by
  intro l hl
  exact (List.dropWhile_sublist List.isEmpty).mem hl

theorem dropTrailingBlanks_subset (L : List (List Char)) :
    ∀ l ∈ dropTrailingBlanks L, l ∈ L := by
  intro l hl
  unfold dropTrailingBlanks at hl
  rw [List.mem_reverse] at hl
  have hsub : List.Sublist (List.dropWhile List.isEmpty L.reverse) L.reverse :=
    List.dropWhile_sublist List.isEmpty
  have hmem := hsub.mem hl
  simpa using hmem

theorem joinNl_ne_nil_of_head_ne_nil (l : List Char) (ls : List (List Char))
    (h : l ≠ []) : joinNl (l :: ls) ≠ [] := by
  rcases ls with _ | ⟨l', ls'⟩
  · simpa [joinNl]
  · rw [joinNl_cons_cons]
    rcases l with _ | ⟨c, cs⟩
    · exact absurd rfl h
    · simp

namespace AhlRunner

theorem bannerLoop_false (ls : List (List Char)) : bannerLoop false ls = ls := by
  induction ls with
  | nil => rfl
  | cons l ls ih => simp only [bannerLoop, ih]

theorem bannerLoop_skip_prefix (p rest : List (List Char))
    (h : ∀ l ∈ p, skippable l = true) :
    bannerLoop true (p ++ rest) = bannerLoop true rest := by
  induction p with
  | nil => rfl
  | cons l p ih =>
    have hl : skippable l = true := h l (List.mem_cons_self l p)
    simp only [List.cons_append, bannerLoop, if_pos hl]
    exact ih (fun x hx => h x (List.mem_cons_of_mem l hx))

theorem bannerLoop_content (l : List Char) (rest : List (List Char))
    (h : skippable l = false) : bannerLoop true (l :: rest) = l :: rest := by
  simp only [bannerLoop, h, Bool.false_eq_true, if_false, bannerLoop_false]

theorem bannerLoop_subset (b : Bool) (L : List (List Char)) :
    ∀ l ∈ bannerLoop b L, l ∈ L := by
  induction L generalizing b with
  | nil => simp [bannerLoop]
  | cons x xs ih =>
    intro l hl
    rcases b with _ | _
    · simp only [bannerLoop] at hl
      rcases List.mem_cons.mp hl with h1 | h1
      · exact h1 ▸ List.mem_cons_self x xs
      · exact List.mem_cons_of_mem x (ih false l h1)
    · simp only [bannerLoop] at hl
      split at hl
      · exact List.mem_cons_of_mem x (ih true l hl)
      · rcases List.mem_cons.mp hl with h1 | h1
        · exact h1 ▸ List.mem_cons_self x xs
        · exact List.mem_cons_of_mem x (ih false l h1)

/-- A line that fails every banner test still fails them after rstrip:
the markers are substring tests and rstrip only removes a suffix. -/
theorem skippable_rstrip (l : List Char) (h : skippable (rstrip l) = true) :
    skippable l = true := by
  simp only [skippable, Bool.or_eq_true, Bool.and_eq_true, beq_iff_eq,
    pyStrip_rstrip] at h ⊢
  rcases h with ((((((h1 | h2) | h3) | h4) | h5) | h6) | h7) | h8
  · exact Or.inl (Or.inl (Or.inl (Or.inl (Or.inl (Or.inl (Or.inl
      (containsSub_rstrip l _ h1)))))))
  · exact Or.inl (Or.inl (Or.inl (Or.inl (Or.inl (Or.inl (Or.inr
      ⟨containsSub_pyUpper_rstrip l _ h2.1,
        containsSub_pyUpper_rstrip l _ h2.2⟩))))))
  · exact Or.inl (Or.inl (Or.inl (Or.inl (Or.inl (Or.inr
      (containsSub_rstrip l _ h3))))))
  · exact Or.inl (Or.inl (Or.inl (Or.inl (Or.inr
      (containsSub_rstrip l _ h4)))))
  · exact Or.inl (Or.inl (Or.inl (Or.inr (containsSub_rstrip l _ h5))))
  · exact Or.inl (Or.inl (Or.inr (containsSub_rstrip l _ h6)))
  · exact Or.inl (Or.inr h7)
  · exact Or.inr h8

theorem skippable_of_blank (l : List Char) (h : pyStrip l = []) :
    skippable l = true := by
  simp [skippable, h]

theorem pyStrip_ne_nil_of_not_skippable (l : List Char)
    (h : skippable l = false) : pyStrip l ≠ [] := by
  intro heq
  rw [skippable_of_blank l heq] at h
  exact absurd h (by simp)

theorem bannerLoop_true_shape (L : List (List Char)) :
    bannerLoop true L = [] ∨
      ∃ l₀ rest, bannerLoop true L = l₀ :: rest ∧ skippable l₀ = false := by
  induction L with
  | nil => exact Or.inl rfl
  | cons l ls ih =>
    by_cases h : skippable l = true
    · simpa [bannerLoop, h] using ih
    · refine Or.inr ⟨l, ls, ?_, Bool.not_eq_true _ ▸ h⟩
      exact bannerLoop_content l ls (Bool.not_eq_true _ ▸ h)

theorem normalize_output_eq (s : List Char) :
    normalize_output s = joinNl (normLines (splitNl s)) := rfl

theorem normLines_mem_image (L : List (List Char)) :
    ∀ l ∈ normLines L, ∃ l₀ ∈ L, l = rstrip l₀ := by
  intro l hl
  have h1 := dropTrailingBlanks_subset _ l hl
  have h2 := dropLeadingBlanks_subset _ l h1
  rcases List.mem_map.mp h2 with ⟨l₀, hl₀, he⟩
  exact ⟨l₀, hl₀, he.symm⟩

theorem normLines_rstripped (L : List (List Char)) :
    ∀ l ∈ normLines L, rstrip l = l := by
  intro l hl
  rcases normLines_mem_image L l hl with ⟨l₀, _, he⟩
  rw [he, rstrip_idem]

theorem map_rstrip_of_rstripped (L : List (List Char))
    (h : ∀ l ∈ L, rstrip l = l) : L.map rstrip = L := by
  induction L with
  | nil => rfl
  | cons l ls ih =>
    simp only [List.map_cons, h l (List.mem_cons_self l ls)]
    rw [ih (fun x hx => h x (List.mem_cons_of_mem l hx))]

/-- With no bell, escape or carriage-return character present, the three
character-level passes of strip_banner are the identity. -/
theorem strip_banner_of_clean (s : List Char)
    (hb : ∀ c ∈ s, c ≠ bellChar) (he : ∀ c ∈ s, c ≠ escChar)
    (hr : ∀ c ∈ s, c ≠ '\r') :
    strip_banner s = joinNl (bannerLoop true (splitNl s)) := by
  unfold strip_banner
  have h1 : removeBell s = s := by
    apply List.filter_eq_self.mpr
    intro a ha
    simpa using hb a ha
  rw [h1]
  rw [stripAnsi_noEsc s he]
  have h3 : removeCR s = s := by
    apply List.filter_eq_self.mpr
    intro a ha
    simpa using hr a ha
  rw [h3]

/-- Claim C1 (amended). The full normalization pipeline (bell, escape and
carriage-return stripping, banner skip, per-line trailing-whitespace trim,
blank-edge trim) is idempotent on every input that contains no escape
character. -/
theorem normalize_idem_escFree (x : List Char) (h : escFree x = true) :
    normalize (normalize x) = normalize x := by
  have hesc : ∀ c ∈ x, c ≠ escChar := by
    intro c hc
    have hx := List.all_eq_true.mp h c hc
    simpa using hx
  have hs1esc : ∀ c ∈ removeBell x, c ≠ escChar := by
    intro c hc
    exact hesc c (List.mem_filter.mp hc).1
  have hstrip : stripAnsi (removeBell x) = removeBell x :=
    stripAnsi_noEsc _ hs1esc
  obtain ⟨s3, hs3⟩ : ∃ s3, removeCR (removeBell x) = s3 := ⟨_, rfl⟩
  have hs3bell : ∀ c ∈ s3, c ≠ bellChar := by
    intro c hc
    rw [← hs3] at hc
    have h1 : c ∈ removeBell x := (List.mem_filter.mp hc).1
    have h2 := (List.mem_filter.mp h1).2
    simpa using h2
  have hs3esc : ∀ c ∈ s3, c ≠ escChar := by
    intro c hc
    rw [← hs3] at hc
    exact hs1esc c (List.mem_filter.mp hc).1
  have hs3cr : ∀ c ∈ s3, c ≠ '\r' := by
    intro c hc
    rw [← hs3] at hc
    have h2 := (List.mem_filter.mp hc).2
    simpa using h2
  obtain ⟨B, hBdef⟩ : ∃ B, bannerLoop true (splitNl s3) = B := ⟨_, rfl⟩
  obtain ⟨F, hFdef⟩ : ∃ F, normLines B = F := ⟨_, rfl⟩
  have hsb : strip_banner x = joinNl B := by
    unfold strip_banner
    rw [hstrip, hs3, hBdef]
  have hBnl : ∀ l ∈ B, '\n' ∉ l := by
    intro l hl
    rw [← hBdef] at hl
    exact splitNl_mem_noNl s3 l (bannerLoop_subset true _ l hl)
  have hBchars : ∀ l ∈ B, ∀ c ∈ l, c ∈ s3 := by
    intro l hl c hc
    rw [← hBdef] at hl
    exact splitNl_mem_subset s3 l (bannerLoop_subset true _ l hl) c hc
  have hFnl : ∀ l ∈ F, '\n' ∉ l := by
    intro l hl hc
    rw [← hFdef] at hl
    rcases normLines_mem_image B l hl with ⟨l₀, hl₀, he⟩
    rw [he] at hc
    exact hBnl l₀ hl₀ (rstrip_subset l₀ _ hc)
  have hFchars : ∀ l ∈ F, ∀ c ∈ l, c ∈ s3 := by
    intro l hl c hc
    rw [← hFdef] at hl
    rcases normLines_mem_image B l hl with ⟨l₀, hl₀, he⟩
    rw [he] at hc
    exact hBchars l₀ hl₀ c (rstrip_subset l₀ c hc)
  have hFstripped : ∀ l ∈ F, rstrip l = l := by
    intro l hl
    rw [← hFdef] at hl
    exact normLines_rstripped B l hl
  have hnx : normalize x = joinNl F := by
    unfold normalize
    rw [hsb, normalize_output_eq]
    rcases bannerLoop_true_shape (splitNl s3) with hB0 | ⟨l₀, rest, hBc, _⟩
    · rw [hBdef] at hB0
      rw [hB0, ← hFdef, hB0]
      rfl
    · rw [hBdef] at hBc
      have hBne : B ≠ [] := by rw [hBc]; simp
      rw [splitNl_joinNl B hBne hBnl, hFdef]
  rw [hnx]
  rcases bannerLoop_true_shape (splitNl s3) with hB0 | ⟨l₀, rest, hBc, hl₀⟩
  · -- the banner loop dropped everything: the normal form is empty
    rw [hBdef] at hB0
    have hF0 : F = [] := by rw [← hFdef, hB0]; rfl
    rw [hF0]
    rfl
  · -- the normal form starts with a nonblank, non-marker line
    rw [hBdef] at hBc
    have h₀ne : rstrip l₀ ≠ [] :=
      rstrip_ne_nil_of_pyStrip_ne_nil l₀ (pyStrip_ne_nil_of_not_skippable l₀ hl₀)
    have hF : F = rstrip l₀ :: dropTrailingBlanks (rest.map rstrip) := by
      rw [← hFdef]
      simp only [normLines, hBc, List.map_cons]
      rw [dropLeadingBlanks_cons_of_ne _ _ h₀ne, dropTrailingBlanks_cons_of_ne _ _ h₀ne]
    have h₀skip : skippable (rstrip l₀) = false := by
      cases hsk : skippable (rstrip l₀) with
      | false => rfl
      | true =>
        rw [skippable_rstrip l₀ hsk] at hl₀
        exact absurd hl₀ (by simp)
    have hFne : F ≠ [] := by rw [hF]; simp
    have hyb : ∀ c ∈ joinNl F, c ≠ bellChar := by
      intro c hc
      rcases joinNl_mem F c hc with h1 | ⟨l, hl, hcl⟩
      · rw [h1]; decide
      · exact hs3bell c (hFchars l hl c hcl)
    have hye : ∀ c ∈ joinNl F, c ≠ escChar := by
      intro c hc
      rcases joinNl_mem F c hc with h1 | ⟨l, hl, hcl⟩
      · rw [h1]; decide
      · exact hs3esc c (hFchars l hl c hcl)
    have hyr : ∀ c ∈ joinNl F, c ≠ '\r' := by
      intro c hc
      rcases joinNl_mem F c hc with h1 | ⟨l, hl, hcl⟩
      · rw [h1]; decide
      · exact hs3cr c (hFchars l hl c hcl)
    have hsplit : splitNl (joinNl F) = F := splitNl_joinNl F hFne hFnl
    have hloop : bannerLoop true F = F := by
      rw [hF]
      exact bannerLoop_content _ _ h₀skip
    have hmapF : F.map rstrip = F := map_rstrip_of_rstripped F hFstripped
    have hdlF : dropLeadingBlanks F = F := by
      rw [hF]
      exact dropLeadingBlanks_cons_of_ne _ _ h₀ne
    have hdtF : dropTrailingBlanks F = F := by
      rw [hF, dropTrailingBlanks_cons_of_ne _ _ h₀ne, dropTrailingBlanks_idem]
    have hnormF : normLines F = F := by
      simp only [normLines]
      rw [hmapF, hdlF, hdtF]
    unfold normalize
    rw [strip_banner_of_clean _ hyb hye hyr, hsplit, hloop, normalize_output_eq,
      hsplit, hnormF]

end AhlRunner

/-- Claim C1, counterexample: the normalization pipeline is not idempotent
on every input. One pass over ESC ESC [ 0 m A removes the inner escape
sequence and leaves ESC A, which the second pass reads as a fresh
two-character escape sequence and removes entirely. -/
theorem normalize_not_idempotent_cex :
    AhlRunner.normalize (AhlRunner.normalize
        ([escChar, escChar, '[', '0', 'm', 'A'])) ≠
      AhlRunner.normalize ([escChar, escChar, '[', '0', 'm', 'A']) := by
  decide

/-- Witness for normalize_idem_escFree at a concrete transcript with a
banner prompt, a blank line and trailing spaces. -/
theorem normalize_idem_escFree_witness :
    AhlRunner.escFree (("OK\n\nHELLO WORLD  \nBYE").data) = true ∧
      AhlRunner.normalize (AhlRunner.normalize
          (("OK\n\nHELLO WORLD  \nBYE").data)) =
        AhlRunner.normalize (("OK\n\nHELLO WORLD  \nBYE").data) :=
  ⟨by decide, AhlRunner.normalize_idem_escFree _ (by decide)⟩

/-- Claim C2: after test_game runs all scenarios of a game, the registry
status of the game becomes failed when any scenario verdict was FAIL,
otherwise tested when at least one verdict was PASS, otherwise the prior
status is kept unchanged. -/
theorem updateEntry_status_rule (e : AhlRunner.GameEntry)
    (results : List Verdict) :
    (AhlRunner.updateEntry e results).status =
      if results.any (fun r => r == Verdict.FAIL) then ("failed")
      else if results.any (fun r => r == Verdict.PASS) then ("tested")
      else e.status := by
  unfold AhlRunner.updateEntry AhlRunner.newStatus
  by_cases hf : results.countP (fun r => r == Verdict.FAIL) = 0
  · have haf : results.any (fun r => r == Verdict.FAIL) = false := by
      rw [← Bool.not_eq_true]
      intro hc
      rcases List.any_eq_true.mp hc with ⟨x, hx, hpx⟩
      exact List.countP_eq_zero.mp hf x hx hpx
    by_cases hp : 0 < results.countP (fun r => r == Verdict.PASS)
    · have hap : results.any (fun r => r == Verdict.PASS) = true := by
        rcases List.countP_pos_iff.mp hp with ⟨x, hx, hpx⟩
        exact List.any_eq_true.mpr ⟨x, hx, hpx⟩
      simp [hf, hp, haf, hap]
    · have hap : results.any (fun r => r == Verdict.PASS) = false := by
        rw [← Bool.not_eq_true]
        intro hc
        rcases List.any_eq_true.mp hc with ⟨x, hx, hpx⟩
        exact hp (List.countP_pos_iff.mpr ⟨x, hx, hpx⟩)
      simp [hf, hp, haf, hap]
  · have hpos : 0 < results.countP (fun r => r == Verdict.FAIL) :=
      Nat.pos_of_ne_zero hf
    have haf : results.any (fun r => r == Verdict.FAIL) = true := by
      rcases List.countP_pos_iff.mp hpos with ⟨x, hx, hpx⟩
      exact List.any_eq_true.mpr ⟨x, hx, hpx⟩
    simp [hf, hpos, haf]

theorem statusOk_newStatus (results : List Verdict) (prior : String)
    (h : AhlRunner.statusOk prior = true) :
    AhlRunner.statusOk (AhlRunner.newStatus results prior) = true := by
  simp only [AhlRunner.newStatus]
  split
  · decide
  · split
    · decide
    · exact h

theorem wfGames_runGame (r : AhlRunner.Registry) (name : String)
    (results : List Verdict) (h : AhlRunner.wfGames r.games = true) :
    AhlRunner.wfGames (AhlRunner.runGame r name results).games = true := by
  apply List.all_eq_true.mpr
  intro g hg
  simp only [AhlRunner.runGame] at hg
  rcases List.mem_map.mp hg with ⟨g0, hg0, he⟩
  have h0 : AhlRunner.statusOk g0.2.status = true := by
    have hx := List.all_eq_true.mp h g0 hg0
    simpa using hx
  by_cases hn : g0.1 = name
  · rw [if_pos hn] at he
    rw [← he]
    exact statusOk_newStatus results g0.2.status h0
  · rw [if_neg hn] at he
    rw [← he]
    exact h0

theorem applyRuns_cons (pr : String × List Verdict)
    (runs : List (String × List Verdict)) (r : AhlRunner.Registry) :
    AhlRunner.applyRuns (pr :: runs) r =
      AhlRunner.applyRuns runs (AhlRunner.runGame r pr.1 pr.2) := rfl

theorem wfGames_applyRuns (runs : List (String × List Verdict))
    (r : AhlRunner.Registry) (h : AhlRunner.wfGames r.games = true) :
    AhlRunner.wfGames (AhlRunner.applyRuns runs r).games = true := by
  induction runs generalizing r with
  | nil => exact h
  | cons pr runs ih =>
    rw [applyRuns_cons]
    exact ih _ (wfGames_runGame r pr.1 pr.2 h)

theorem beq_tt : ((("tested") : String) == ("tested")) = true := by decide

theorem beq_tp : ((("tested") : String) == ("pending")) = false := by decide

theorem beq_tf : ((("tested") : String) == ("failed")) = false := by decide

theorem beq_pt : ((("pending") : String) == ("tested")) = false := by decide

theorem beq_pp : ((("pending") : String) == ("pending")) = true := by decide

theorem beq_pf : ((("pending") : String) == ("failed")) = false := by decide

theorem beq_ft : ((("failed") : String) == ("tested")) = false := by decide

theorem beq_fp : ((("failed") : String) == ("pending")) = false := by decide

theorem beq_ff : ((("failed") : String) == ("failed")) = true := by decide

theorem count_three (games : List (String × AhlRunner.GameEntry))
    (h : AhlRunner.wfGames games = true) :
    games.countP (fun g => g.2.status == ("tested")) +
      games.countP (fun g => g.2.status == ("pending")) +
      games.countP (fun g => g.2.status == ("failed")) = games.length := by
  induction games with
  | nil => rfl
  | cons g gs ih =>
    have hg : AhlRunner.statusOk g.2.status = true := by
      have hx := List.all_eq_true.mp h g (List.mem_cons_self g gs)
      simpa using hx
    have hgs : AhlRunner.wfGames gs = true := by
      apply List.all_eq_true.mpr
      intro x hx
      exact List.all_eq_true.mp h x (List.mem_cons_of_mem g hx)
    have hsum := ih hgs
    have h3 : (g.2.status = ("tested") ∨ g.2.status = ("pending")) ∨
        g.2.status = ("failed") := by
      simpa [AhlRunner.statusOk, Bool.or_eq_true, beq_iff_eq] using hg
    rcases h3 with (h1 | h1) | h1
    · simp only [List.countP_cons, h1, beq_tt, beq_tp, beq_tf,
        Bool.false_eq_true, if_true, if_false, List.length_cons]
      omega
    · simp only [List.countP_cons, h1, beq_pt, beq_pp, beq_pf,
        Bool.false_eq_true, if_true, if_false, List.length_cons]
      omega
    · simp only [List.countP_cons, h1, beq_ft, beq_fp, beq_ff,
        Bool.false_eq_true, if_true, if_false, List.length_cons]
      omega

/-- Claim C3: after any sequence of test_game runs followed by a
save_registry, the stored statistics satisfy total equal to the number of
games and tested plus pending plus failed equal to total, and the whole
statistics block equals the one recomputed from the full game set, so it is
derived rather than incrementally patched. The hypothesis is the registry
schema of section 6: every stored status is pending, tested or failed. -/
theorem registry_stats_consistent (r : AhlRunner.Registry)
    (runs : List (String × List Verdict))
    (h : AhlRunner.wfGames r.games = true) :
    AhlRunner.statsConsistent
      (AhlRunner.save_registry (AhlRunner.applyRuns runs r)) := by
  have hwf : AhlRunner.wfGames (AhlRunner.applyRuns runs r).games = true :=
    wfGames_applyRuns runs r h
  refine ⟨rfl, ?_, rfl⟩
  have hc := count_three (AhlRunner.applyRuns runs r).games hwf
  simpa [AhlRunner.save_registry, AhlRunner.computeStats] using hc

/-- Witness for registry_stats_consistent: one pending game run with a
single passing scenario. -/
theorem registry_stats_consistent_witness :
    AhlRunner.wfGames
        [((("HAMURABI") : String), AhlRunner.GameEntry.mk ("pending") 0)] = true ∧
      AhlRunner.statsConsistent (AhlRunner.save_registry (AhlRunner.applyRuns
        [((("HAMURABI") : String), [Verdict.PASS])]
        (AhlRunner.Registry.mk
          [((("HAMURABI") : String), AhlRunner.GameEntry.mk ("pending") 0)]
          (AhlRunner.TestStats.mk 0 0 0 0)))) :=
  ⟨by decide, registry_stats_consistent _ _ (by decide)⟩

theorem unified_diff_join_ne_nil (a b : List (List Char))
    (fromfile tofile : List Char) (h : a ≠ b) :
    joinNl (unified_diff a b fromfile tofile) ≠ [] := by
  unfold unified_diff
  rw [if_neg h]
  apply joinNl_ne_nil_of_head_ne_nil
  intro hc
  rcases List.append_eq_nil.mp hc with ⟨h1, _⟩
  exact absurd h1 (by decide)

/-- Claim C4, counterexample: compare_outputs does not decide equality of
the full normalization of section 4.2. With first output OK newline HELLO
and second output HELLO, the full pipeline normalizes both to HELLO, yet
compare_outputs reports inequality, because only the whitespace and
blank-line normalization runs inside the comparison while banner stripping
happens earlier in run_interpreter. -/
theorem compare_not_full_normalize_cex :
    AhlRunner.normalize (("OK\nHELLO").data) =
        AhlRunner.normalize (("HELLO").data) ∧
      (AhlRunner.compare_outputs (("OK\nHELLO").data) (("HELLO").data)
        (("GAME").data)).1 = false := by
  constructor
  · decide
  · decide

/-- Claim C4 (amended): compare_outputs reports equality exactly when
normalize_output (the whitespace and blank-line normalization only, the
stage of section 4.2 that runs inside compare; banner and control
stripping is applied to outputs beforehand in run_interpreter) agrees on
the two texts; on equality the diff is none, and on inequality the diff is
present and nonempty. The comparison of test_harness.py likewise decides
exactly equality of its own normalization. -/
theorem compare_outputs_spec (c golden name : List Char) :
    ((AhlRunner.compare_outputs c golden name).1 = true ↔
      AhlRunner.normalize_output c = AhlRunner.normalize_output golden) ∧
    ((AhlRunner.compare_outputs c golden name).1 = true →
      (AhlRunner.compare_outputs c golden name).2 = none) ∧
    ((AhlRunner.compare_outputs c golden name).1 = false →
      ∃ d, (AhlRunner.compare_outputs c golden name).2 = some d ∧ d ≠ []) ∧
    (TestHarness.compare_outputs c golden = none ↔
      TestHarness.normalize_output c = TestHarness.normalize_output golden) := by
  refine ⟨?_, ?_, ?_, ?_⟩
  · by_cases heq : AhlRunner.normalize_output c = AhlRunner.normalize_output golden
    · simp [AhlRunner.compare_outputs, heq]
    · simp [AhlRunner.compare_outputs, heq]
  · intro h1
    by_cases heq : AhlRunner.normalize_output c = AhlRunner.normalize_output golden
    · simp [AhlRunner.compare_outputs, heq]
    · simp [AhlRunner.compare_outputs, heq] at h1
  · intro h1
    by_cases heq : AhlRunner.normalize_output c = AhlRunner.normalize_output golden
    · simp [AhlRunner.compare_outputs, heq] at h1
    · have hsplit : splitNl (AhlRunner.normalize_output golden) ≠
          splitNl (AhlRunner.normalize_output c) := by
        intro hs
        apply heq
        have hj := congrArg joinNl hs
        rw [joinNl_splitNl, joinNl_splitNl] at hj
        exact hj.symm
      refine ⟨joinNl (unified_diff (splitNl (AhlRunner.normalize_output golden))
        (splitNl (AhlRunner.normalize_output c))
        (name ++ ((".golden").data)) (name ++ ((".c").data))), ?_, ?_⟩
      · simp [AhlRunner.compare_outputs, heq]
      · exact unified_diff_join_ne_nil _ _ _ _ hsplit
  · constructor
    · intro hn
      by_cases hsp : splitNl (TestHarness.normalize_output c) =
          splitNl (TestHarness.normalize_output golden)
      · have hj := congrArg joinNl hsp
        rw [joinNl_splitNl, joinNl_splitNl] at hj
        exact hj
      · simp [TestHarness.compare_outputs, hsp] at hn
    · intro he
      simp [TestHarness.compare_outputs, he]

/-- Witness for compare_outputs_spec at concrete unequal outputs. -/
theorem compare_outputs_spec_witness :
    ((AhlRunner.compare_outputs (("A").data) (("B").data) (("G").data)).1 = true ↔
      AhlRunner.normalize_output (("A").data) =
        AhlRunner.normalize_output (("B").data)) ∧
    ((AhlRunner.compare_outputs (("A").data) (("B").data) (("G").data)).1 = true →
      (AhlRunner.compare_outputs (("A").data) (("B").data) (("G").data)).2 = none) ∧
    ((AhlRunner.compare_outputs (("A").data) (("B").data) (("G").data)).1 = false →
      ∃ d, (AhlRunner.compare_outputs (("A").data) (("B").data) (("G").data)).2 =
          some d ∧ d ≠ []) ∧
    (TestHarness.compare_outputs (("A").data) (("B").data) = none ↔
      TestHarness.normalize_output (("A").data) =
        TestHarness.normalize_output (("B").data)) :=
  compare_outputs_spec (("A").data) (("B").data) (("G").data)

/-- Claim C5: a scenario whose golden record is absent yields verdict SKIP
(so never PASS and never FAIL), whatever output the subject produced, both
in the AHL runner scenario loop and in run_test of the generic harness. -/
theorem missing_golden_skips
    (scenarios : List (Option (List Char) × List Char)) (name : List Char)
    (i : Nat) (o : List Char) (h : scenarios[i]? = some (none, o)) :
    (AhlRunner.test_game_results scenarios name)[i]? = some Verdict.SKIP ∧
      TestHarness.run_test_verdict none o = Verdict.SKIP := by
  refine ⟨?_, rfl⟩
  unfold AhlRunner.test_game_results
  rw [List.getElem?_map, h]
  rfl

/-- Witness for missing_golden_skips: one scenario with no golden file and
arbitrary subject output. -/
theorem missing_golden_skips_witness :
    (([(none, (("NOISE").data))] :
        List (Option (List Char) × List Char))[0]? = some (none, (("NOISE").data))) ∧
      ((AhlRunner.test_game_results [(none, (("NOISE").data))] (("G").data))[0]? =
          some Verdict.SKIP ∧
        TestHarness.run_test_verdict none (("NOISE").data) = Verdict.SKIP) :=
  ⟨rfl, missing_golden_skips [(none, (("NOISE").data))] (("G").data) 0
    (("NOISE").data) rfl⟩

theorem cleanLine_chars (l : List Char) (hl : cleanLine l = true) :
    ∀ c ∈ l, c ≠ bellChar ∧ c ≠ escChar ∧ c ≠ '\r' ∧ c ≠ '\n' := by
  intro c hc
  simp only [cleanLine] at hl
  have h2 := List.all_eq_true.mp hl c hc
  simp only [Bool.and_eq_true, bne_iff_ne] at h2
  exact ⟨h2.1.1.1, h2.1.1.2, h2.1.2, h2.2⟩

theorem strip_banner_join_skip (p rest : List (List Char))
    (hclean : cleanLines (p ++ rest) = true)
    (hskip : ∀ l ∈ p, AhlRunner.skippable l = true) :
    AhlRunner.strip_banner (joinNl (p ++ rest)) =
      joinNl (AhlRunner.bannerLoop true rest) := by
  have hch : ∀ c ∈ joinNl (p ++ rest),
      c ≠ bellChar ∧ c ≠ escChar ∧ c ≠ '\r' := by
    intro c hc
    rcases joinNl_mem _ c hc with h1 | ⟨l, hl, hcl⟩
    · subst h1
      exact ⟨by decide, by decide, by decide⟩
    · have h4 := cleanLine_chars l (List.all_eq_true.mp hclean l hl) c hcl
      exact ⟨h4.1, h4.2.1, h4.2.2.1⟩
  rw [AhlRunner.strip_banner_of_clean _ (fun c hc => (hch c hc).1)
    (fun c hc => (hch c hc).2.1) (fun c hc => (hch c hc).2.2)]
  by_cases hne : p ++ rest = []
  · rcases List.append_eq_nil.mp hne with ⟨hp, hr2⟩
    rw [hp, hr2]
    decide
  · have hnlfree : ∀ l ∈ p ++ rest, '\n' ∉ l := by
      intro l hl hmem
      exact (cleanLine_chars l (List.all_eq_true.mp hclean l hl) '\n' hmem).2.2.2 rfl
    rw [splitNl_joinNl _ hne hnlfree, AhlRunner.bannerLoop_skip_prefix p rest hskip]

/-- Claim C6: banner skipping is a two-state scan from the top: while in
the skipping state every marker or blank line is dropped; the first
non-matching, nonblank line switches the machine to the content state and
is emitted, and every subsequent line is emitted verbatim, including later
lines matching banner markers; consequently two transcripts differing only
in their preamble before the first content line normalize to the same
result. -/
theorem banner_skip_two_state :
    (∀ p rest, p.all AhlRunner.skippable = true →
        AhlRunner.bannerLoop true (p ++ rest) = AhlRunner.bannerLoop true rest) ∧
    (∀ l rest, AhlRunner.skippable l = false →
        AhlRunner.bannerLoop true (l :: rest) = l :: rest) ∧
    (∀ p₁ p₂ rest, cleanLines (p₁ ++ rest) = true →
        cleanLines (p₂ ++ rest) = true →
        p₁.all AhlRunner.skippable = true → p₂.all AhlRunner.skippable = true →
        AhlRunner.normalize (joinNl (p₁ ++ rest)) =
          AhlRunner.normalize (joinNl (p₂ ++ rest))) := by
  refine ⟨?_, ?_, ?_⟩
  · intro p rest hp
    exact AhlRunner.bannerLoop_skip_prefix p rest (List.all_eq_true.mp hp)
  · intro l rest hl
    exact AhlRunner.bannerLoop_content l rest hl
  · intro p₁ p₂ rest hc1 hc2 hs1 hs2
    unfold AhlRunner.normalize
    rw [strip_banner_join_skip p₁ rest hc1 (List.all_eq_true.mp hs1),
      strip_banner_join_skip p₂ rest hc2 (List.all_eq_true.mp hs2)]

/-- Witness for banner_skip_two_state: an OK prompt and a blank line
against a product banner, before the same content line. -/
theorem banner_skip_two_state_witness :
    cleanLines ([("OK").data, ([] : List Char)] ++ [("HELLO").data]) = true ∧
      cleanLines ([("MICROSOFT BASIC 8K").data] ++ [("HELLO").data]) = true ∧
      ([("OK").data, ([] : List Char)]).all AhlRunner.skippable = true ∧
      ([("MICROSOFT BASIC 8K").data]).all AhlRunner.skippable = true ∧
      AhlRunner.normalize (joinNl ([("OK").data, ([] : List Char)] ++
          [("HELLO").data])) =
        AhlRunner.normalize (joinNl ([("MICROSOFT BASIC 8K").data] ++
          [("HELLO").data])) :=
  ⟨by decide, by decide, by decide, by decide,
    banner_skip_two_state.2.2 [("OK").data, ([] : List Char)]
      [("MICROSOFT BASIC 8K").data] [("HELLO").data]
      (by decide) (by decide) (by decide) (by decide)⟩

/-- Claim C7, counterexample: in normalize_output of test_harness.py the
claim fails, because that normalization collapses whitespace runs and
removes leading whitespace: three spaces then X becomes X. -/
theorem harness_collapses_whitespace_cex :
    TestHarness.normalize_output (("   X").data) = (("X").data) ∧
      TestHarness.normalize_output (("   X").data) ≠ (("   X").data) := by
  constructor
  · decide
  · decide

theorem dropWhile_eq_self_head (c : Char) (t : List Char)
    (h : List.dropWhile isPySpace (c :: t) = c :: t) : isPySpace c = false := by
  by_cases hc : isPySpace c = true
  · rw [List.dropWhile_cons_of_pos hc] at h
    have hlen := congrArg List.length h
    have hle : (List.dropWhile isPySpace t).length ≤ t.length :=
      (List.dropWhile_sublist isPySpace).length_le
    simp only [List.length_cons] at hlen
    omega
  · exact Bool.not_eq_true _ ▸ hc

/-- Claim C7 (amended): in the AHL runner normalization, each line loses
exactly its trailing whitespace: a line of leading spaces, a body with no
trailing whitespace, and trailing spaces normalizes to the leading spaces
and the body, so leading whitespace and internal spacing are preserved
while trailing whitespace is removed. The test_harness.py normalization
instead collapses whitespace runs and strips leading spaces. -/
theorem normalize_output_trailing_only (n m : Nat) (s : List Char)
    (hne : s ≠ []) (hnl : noNl s = true) (hr : rstrip s = s) :
    AhlRunner.normalize_output
        (List.replicate n ' ' ++ s ++ List.replicate m ' ') =
      List.replicate n ' ' ++ s := by
  have hnomem : '\n' ∉ List.replicate n ' ' ++ s ++ List.replicate m ' ' := by
    intro hm
    rcases List.mem_append.mp hm with h1 | h1
    · rcases List.mem_append.mp h1 with h2 | h2
      · exact absurd (List.eq_of_mem_replicate h2) (by decide)
      · have := List.all_eq_true.mp hnl _ h2
        simp at this
    · exact absurd (List.eq_of_mem_replicate h1) (by decide)
  have hsrev : List.dropWhile isPySpace s.reverse = s.reverse := by
    have hr2 : (List.dropWhile isPySpace s.reverse).reverse = s := hr
    calc List.dropWhile isPySpace s.reverse
        = ((List.dropWhile isPySpace s.reverse).reverse).reverse := by
          rw [List.reverse_reverse]
      _ = s.reverse := by rw [hr2]
  have hrs : rstrip (List.replicate n ' ' ++ s ++ List.replicate m ' ') =
      List.replicate n ' ' ++ s := by
    unfold rstrip
    rw [List.reverse_append, List.reverse_append, List.reverse_replicate]
    rw [List.dropWhile_append_of_pos (by
      intro a ha
      rw [List.eq_of_mem_replicate ha]
      decide)]
    rcases hsv : s.reverse with _ | ⟨c, t⟩
    · exact absurd (by simpa using congrArg List.reverse hsv) hne
    · rw [hsv] at hsrev
      have hcps : isPySpace c = false := dropWhile_eq_self_head c t hsrev
      have hstep : (c :: t) ++ (List.replicate n ' ').reverse =
          c :: (t ++ (List.replicate n ' ').reverse) := rfl
      rw [hstep, List.dropWhile_cons_of_neg (by simp [hcps])]
      rw [← hstep, ← hsv, List.reverse_append, List.reverse_reverse,
        List.reverse_reverse]
  unfold AhlRunner.normalize_output
  rw [splitNl_of_noNl _ hnomem]
  simp only [List.map_cons, List.map_nil]
  rw [hrs]
  have hne2 : List.replicate n ' ' ++ s ≠ [] := by
    intro hc
    rcases List.append_eq_nil.mp hc with ⟨_, h2⟩
    exact hne h2
  rw [dropLeadingBlanks_cons_of_ne _ _ hne2, dropTrailingBlanks_cons_of_ne _ _ hne2]
  rfl

/-- Witness for normalize_output_trailing_only: three leading spaces are
kept, three trailing spaces are removed. -/
theorem normalize_output_trailing_only_witness :
    ((("X").data) ≠ ([] : List Char)) ∧ noNl (("X").data) = true ∧
      rstrip (("X").data) = (("X").data) ∧
      AhlRunner.normalize_output
          (List.replicate 3 ' ' ++ (("X").data) ++ List.replicate 0 ' ') =
        List.replicate 3 ' ' ++ (("X").data) ∧
      AhlRunner.normalize_output
          (List.replicate 0 ' ' ++ (("X").data) ++ List.replicate 3 ' ') =
        List.replicate 0 ' ' ++ (("X").data) :=
  ⟨by decide, by decide, by decide,
    normalize_output_trailing_only 3 0 (("X").data) (by decide) (by decide)
      (by decide),
    normalize_output_trailing_only 0 3 (("X").data) (by decide) (by decide)
      (by decide)⟩

/-- Claim C8, counterexample: the AHL runner exits 0 even when a FAIL
verdict was produced in the invoked scope. A game whose single scenario
failed makes test_game return false, and main still returns 0 for the test
command. -/
theorem ahl_test_exit_zero_on_fail_cex :
    AhlRunner.test_game_return [Verdict.FAIL] = some false ∧
      AhlRunner.main_test_all_exit [AhlRunner.test_game_return [Verdict.FAIL]] = 0 := by
  constructor
  · decide
  · rfl

theorem countP_fail_zero_iff (statuses : List Verdict) :
    (statuses.countP (fun s => s == Verdict.FAIL) == 0) = true ↔
      Verdict.FAIL ∉ statuses := by
  constructor
  · intro h hmem
    have h0 : statuses.countP (fun s => s == Verdict.FAIL) = 0 := by
      simpa using h
    have hnot := List.countP_eq_zero.mp h0 _ hmem
    simp at hnot
  · intro h
    have h0 : statuses.countP (fun s => s == Verdict.FAIL) = 0 := by
      apply List.countP_eq_zero.mpr
      intro a ha hc
      rw [beq_iff_eq] at hc
      exact h (hc ▸ ha)
    simpa using h0

/-- Claim C8 (amended): in test_harness.py and run_hamurabi_test.py the
process exit code is 0 iff no FAIL verdict was produced in the invoked
scope and non-zero otherwise; the AHL runner test command instead always
exits 0 once the tests have run, whatever the verdicts. -/
theorem exit_code_rule (statuses : List Verdict) :
    (TestHarness.main_test_exit statuses = 0 ↔ Verdict.FAIL ∉ statuses) ∧
      (Hamurabi.main_exit statuses = 0 ↔ Verdict.FAIL ∉ statuses) ∧
      (∀ rs, AhlRunner.main_test_all_exit rs = 0) := by
  have hkey := countP_fail_zero_iff statuses
  refine ⟨?_, ?_, fun rs => rfl⟩
  · by_cases hc : TestHarness.cmd_test_success statuses = true
    · rw [TestHarness.main_test_exit, if_pos hc]
      exact iff_of_true rfl (hkey.mp hc)
    · rw [TestHarness.main_test_exit, if_neg hc]
      refine iff_of_false (by decide) ?_
      intro hnot
      exact hc (hkey.mpr hnot)
  · by_cases hc : (statuses.countP (fun s => s == Verdict.FAIL) == 0) = true
    · rw [Hamurabi.main_exit, if_pos hc]
      exact iff_of_true rfl (hkey.mp hc)
    · rw [Hamurabi.main_exit, if_neg hc]
      refine iff_of_false (by decide) ?_
      intro hnot
      exact hc (hkey.mpr hnot)

/-- Witness for exit_code_rule at a concrete verdict list. -/
theorem exit_code_rule_witness :
    (TestHarness.main_test_exit [Verdict.PASS] = 0 ↔
        Verdict.FAIL ∉ [Verdict.PASS]) ∧
      (Hamurabi.main_exit [Verdict.PASS] = 0 ↔
        Verdict.FAIL ∉ [Verdict.PASS]) ∧
      (∀ rs, AhlRunner.main_test_all_exit rs = 0) :=
  exit_code_rule [Verdict.PASS]

/-- Claim C9, counterexample: on timeout run_interpreter does not return
the output produced before the kill; it returns the fixed sentinel
TIMEOUT ERROR, in which the partial output does not occur. -/
theorem run_interpreter_discards_partial_cex :
    AhlRunner.run_interpreter_output true (("PARTIAL OUTPUT").data) [] =
        (("TIMEOUT ERROR").data) ∧
      containsSub (AhlRunner.run_interpreter_output true
        (("PARTIAL OUTPUT").data) []) (("PARTIAL").data) = false := by
  constructor
  · decide
  · decide

/-- Claim C9 (amended): on timeout run_interpreter kills the whole process
group and reaps the child (operating-system effects outside this
embedding), but returns the fixed sentinel TIMEOUT ERROR whatever was
captured, discarding partial output; run_with_timeout of
generate_loop_game_golden.py is the variant that preserves partial output,
returning the banner-stripped concatenation of the captured standard
output and standard error. -/
theorem timeout_output_rule (so se so2 se2 : List Char) :
    AhlRunner.run_interpreter_output true so se = (("TIMEOUT ERROR").data) ∧
      AhlRunner.run_interpreter_output true so se =
        AhlRunner.run_interpreter_output true so2 se2 ∧
      LoopGolden.run_with_timeout_output so se =
        LoopGolden.strip_banner (so ++ se) := by
  refine ⟨?_, rfl, rfl⟩
  show AhlRunner.strip_banner (("TIMEOUT ERROR").data) = (("TIMEOUT ERROR").data)
  decide

theorem hamKeep_true_id (ls : List (List Char)) :
    Hamurabi.hamKeep true ls = ls := by
  induction ls with
  | nil => rfl
  | cons l ls ih => simp only [Hamurabi.hamKeep, ih]

theorem hamKeep_all_dropped (L : List (List Char))
    (h : L.all (fun q => !(containsSub q (("HAMURABI").data))) = true) :
    Hamurabi.hamKeep false L = [] := by
  induction L with
  | nil => rfl
  | cons l ls ih =>
    have hl : containsSub l (("HAMURABI").data) = false := by
      have hx := List.all_eq_true.mp h l (List.mem_cons_self l ls)
      simpa using hx
    simp only [Hamurabi.hamKeep, hl, Bool.false_eq_true, if_false]
    exact ih (by
      apply List.all_eq_true.mpr
      intro x hx
      exact List.all_eq_true.mp h x (List.mem_cons_of_mem l hx))

/-- Claim C10: HAMURABI banner stripping keeps exactly the lines from the
first line containing HAMURABI onward; when no line contains HAMURABI the
stripped result is empty, so two entirely different such transcripts
compare as equal with a PASS verdict and no diff. -/
theorem hamurabi_banner_gate :
    (∀ pre l post,
        pre.all (fun q => !(containsSub q (("HAMURABI").data))) = true →
        containsSub l (("HAMURABI").data) = true →
        Hamurabi.hamKeep false (pre ++ l :: post) = l :: post) ∧
    (∀ L, L.all (fun q => !(containsSub q (("HAMURABI").data))) = true →
        Hamurabi.hamKeep false L = []) ∧
    (∀ a b name,
        (splitNl (removeBell a)).all
          (fun q => !(containsSub q (("HAMURABI").data))) = true →
        (splitNl (removeBell (removeCR (stripAnsi b)))).all
          (fun q => !(containsSub q (("HAMURABI").data))) = true →
        Hamurabi.strip_banner a = [] ∧ Hamurabi.strip_simh_output b = [] ∧
        Hamurabi.compare_outputs (Hamurabi.strip_banner a)
          (Hamurabi.strip_simh_output b) name = (true, none)) := by
  refine ⟨?_, hamKeep_all_dropped, ?_⟩
  · intro pre l post hpre hl
    induction pre with
    | nil =>
      simp only [List.nil_append, Hamurabi.hamKeep, hl, if_true]
      rw [hamKeep_true_id]
    | cons q pre ih =>
      have hq : containsSub q (("HAMURABI").data) = false := by
        have hx := List.all_eq_true.mp hpre q (List.mem_cons_self q pre)
        simpa using hx
      simp only [List.cons_append, Hamurabi.hamKeep, hq, Bool.false_eq_true,
        if_false]
      exact ih (by
        apply List.all_eq_true.mpr
        intro x hx
        exact List.all_eq_true.mp hpre x (List.mem_cons_of_mem q hx))
  · intro a b name ha hb
    have h1 : Hamurabi.strip_banner a = [] := by
      unfold Hamurabi.strip_banner
      rw [hamKeep_all_dropped _ ha]
      rfl
    have h2 : Hamurabi.strip_simh_output b = [] := by
      unfold Hamurabi.strip_simh_output
      rw [hamKeep_all_dropped _ hb]
      rfl
    refine ⟨h1, h2, ?_⟩
    rw [h1, h2]
    simp [Hamurabi.compare_outputs]

/-- Witness for hamurabi_banner_gate: two entirely different transcripts
with no HAMURABI line compare as equal. -/
theorem hamurabi_banner_gate_witness :
    (splitNl (removeBell (("FOO\nBAR").data))).all
        (fun q => !(containsSub q (("HAMURABI").data))) = true ∧
      (splitNl (removeBell (removeCR (stripAnsi (("TOTALLY DIFFERENT").data))))).all
        (fun q => !(containsSub q (("HAMURABI").data))) = true ∧
      (Hamurabi.strip_banner (("FOO\nBAR").data) = [] ∧
        Hamurabi.strip_simh_output (("TOTALLY DIFFERENT").data) = [] ∧
        Hamurabi.compare_outputs (Hamurabi.strip_banner (("FOO\nBAR").data))
          (Hamurabi.strip_simh_output (("TOTALLY DIFFERENT").data))
          (("scenario_01").data) = (true, none)) :=
  ⟨by decide, by decide,
    hamurabi_banner_gate.2.2 (("FOO\nBAR").data) (("TOTALLY DIFFERENT").data)
      (("scenario_01").data) (by decide) (by decide)⟩

end Altair
